import Mathlib

/-
Verification development for the projectsmigrator reconciliation engine
(src/projectsmigrator.py).  The Python source is shallowly embedded:

* Python strings are modelled as List Char; Python ints as Int (values) or
  Nat (indices).
* Fallible Python code (operations that can raise KeyError, ValueError,
  IndexError, StopIteration, TypeError, or a transport timeout) is modelled
  in the Except monad over the PyErr type below.
* Python dicts that are used as ordered association tables are modelled as
  association lists (List (key x value)); dict.setdefault / dict.update /
  dict.get are modelled by the corresponding assoc-list operations.
* difflib.SequenceMatcher is embedded for the short, junk-free strings this
  program feeds it (autojunk only activates for sequences of length >= 200,
  which never occur here), so the b2j table contains every position of every
  character and the post-DP junk-extension loops of find_longest_match are
  no-ops.
-/

namespace ProjectsMigrator

/-- Exceptions that the embedded Python fragments can raise. -/
inductive PyErr where
  | keyError
  | valueError
  | indexError
  | stopIteration
  | typeError
  | timeoutError
deriving DecidableEq, Repr

/-- A Python scalar value as it flows through set_field / field_value:
either a string (field names, option ids, option names, pipeline names)
or a number (story-point estimates). -/
inductive Value where
  | str : List Char → Value
  | num : Int → Value
deriving DecidableEq, Repr

/-- Association-list lookup, the model of Python dict access
(dct.get(k) / dct[k] membership checks); returns the first binding. -/
def lookupA {α : Type} [DecidableEq α] {β : Type} (l : List (α × β)) (k : α) : Option β :=
  (l.find? (fun p => p.1 = k)).map Prod.snd

/-- Bool test of okness for our Except values. -/
def okE {α : Type} : Except PyErr α → Bool
  | Except.ok _ => true
  | Except.error _ => false

/-- Python round(num / den) for nonnegative rationals: round-half-to-even,
exactly as the Python builtin behaves on an exact (dyadic) quotient.  The
inputs produced by the claims under verification are exactly representable
as floats, so the float arithmetic of the source agrees with this rational
model on them. -/
def pyRoundDiv (num den : Nat) : Nat :=
  let q := num / den
  let r := num % den
  if 2 * r < den then q
  else if den < 2 * r then q + 1
  else if q % 2 = 0 then q else q + 1

/-! ### difflib.SequenceMatcher (no junk, no autojunk)

find_longest_match scans i over a and, for each i, the positions j of a[i]
inside b, maintaining j2len (length of the common suffix run ending at
(i, j)).  The best block is updated only on a strictly larger length, so the
first maximal block in (i ascending, j ascending) scan order wins, exactly
as in CPython.  With an empty junk set the trailing extension loops of the
CPython implementation cannot fire and are omitted. -/

/-- Positions (ascending) of character c inside b: the b2j table. -/
def b2j (b : List Char) (c : Char) : List Nat :=
  (List.range b.length).filter (fun j => b.get? j = some c)

/-- Lookup in the j2len assoc list with default 0 (j2len.get(j-1, 0)). -/
def j2lenGet (l : List (Nat × Nat)) (k : Nat) : Nat :=
  match l.find? (fun p => p.1 = k) with
  | some p => p.2
  | none => 0

/-- Inner loop of find_longest_match over the candidate positions js of
a[i] in b.  Returns the new j2len row and the updated best block
(besti, bestj, bestsize).  A j below blo is skipped (continue), a j at or
beyond bhi ends the row (break).  Python indexes j2len at j - 1, which for
j = 0 is the absent key -1, hence the explicit j = 0 guard. -/
def flmRow (i blo bhi : Nat) (j2len : List (Nat × Nat)) :
    List Nat → List (Nat × Nat) → Nat × Nat × Nat → List (Nat × Nat) × (Nat × Nat × Nat)
  | [], newj2len, best => (newj2len, best)
  | j :: js, newj2len, best =>
    if j < blo then flmRow i blo bhi j2len js newj2len best
    else if bhi ≤ j then (newj2len, best)
    else
      let k := (if j = 0 then 0 else j2lenGet j2len (j - 1)) + 1
      let newj2len2 := (j, k) :: newj2len
      let best2 := if best.2.2 < k then (i + 1 - k, j + 1 - k, k) else best
      flmRow i blo bhi j2len js newj2len2 best2

/-- Outer loop of find_longest_match over the row indices. -/
def flmRows (a b : List Char) (blo bhi : Nat) :
    List Nat → List (Nat × Nat) → Nat × Nat × Nat → Nat × Nat × Nat
  | [], _, best => best
  | i :: is, j2len, best =>
    match a.get? i with
    | none => flmRows a b blo bhi is j2len best
    | some c =>
      let (nj, best2) := flmRow i blo bhi j2len (b2j b c) [] best
      flmRows a b blo bhi is nj best2

/-- SequenceMatcher.find_longest_match(alo, ahi, blo, bhi) on junk-free
sequences: the classic quadratic scan with initial best (alo, blo, 0). -/
def find_longest_match (a b : List Char) (alo ahi blo bhi : Nat) : Nat × Nat × Nat :=
  flmRows a b blo bhi (List.range' alo (ahi - alo)) [] (alo, blo, 0)

/-- Total size of the matching blocks of get_matching_blocks restricted to
the window (alo, ahi, blo, bhi): the longest block plus the recursive sums
to its left and right, exactly the recursion the CPython queue performs
(exploration order does not change the resulting set of blocks, and the
final adjacent-block merge preserves the total size).  The fuel argument
strictly exceeds the recursion depth, which is bounded by the window
perimeter since every level splits the window around a nonempty block. -/
def matchSumFuel (a b : List Char) : Nat → Nat → Nat → Nat → Nat → Nat
  | 0, _, _, _, _ => 0
  | fuel + 1, alo, ahi, blo, bhi =>
    let r := find_longest_match a b alo ahi blo bhi
    let i := r.1
    let j := r.2.1
    let k := r.2.2
    if k = 0 then 0
    else
      k + (if alo < i ∧ blo < j then matchSumFuel a b fuel alo i blo j else 0)
        + (if i + k < ahi ∧ j + k < bhi then matchSumFuel a b fuel (i + k) ahi (j + k) bhi else 0)

/-- Total matched size over the whole pair of sequences. -/
def matchSum (a b : List Char) : Nat :=
  matchSumFuel a b (a.length + b.length + 1) 0 a.length 0 b.length

/-- SequenceMatcher.ratio() as an exact rational, returned as
(numerator, denominator): 2 * M / (len a + len b), and 1.0 when both are
empty. -/
def ratioPair (a b : List Char) : Nat × Nat :=
  let t := a.length + b.length
  if t = 0 then (1, 1) else (2 * matchSum a b, t)

/-- Python string less-than: lexicographic over code points,
a proper prefix is smaller. -/
def pyStrLt : List Char → List Char → Bool
  | [], [] => false
  | [], _ :: _ => true
  | _ :: _, [] => false
  | c :: cs, d :: ds =>
    if c.toNat < d.toNat then true
    else if d.toNat < c.toNat then false
    else pyStrLt cs ds

/-- Python tuple comparison (ratio(x, word), x) > (ratio(y, word), y), as
used by heapq.nlargest over the candidate list of get_close_matches: ratios
compared exactly by cross multiplication, ties resolved by comparing the
candidate strings themselves. -/
def tupGt (word x y : List Char) : Bool :=
  let rx := ratioPair x word
  let ry := ratioPair y word
  if ry.1 * rx.2 < rx.1 * ry.2 then true
  else if rx.1 * ry.2 < ry.1 * rx.2 then false
  else pyStrLt y x

/-- heapq.nlargest(1, candidates) = max over (ratio, name) tuples; Python
max keeps the current element on ties, replacing it only when the new
tuple compares strictly greater. -/
def bestFold (word : List Char) (x : List Char) (xs : List (List Char)) : List Char :=
  xs.foldl (fun acc y => if tupGt word y acc then y else acc) x

/-- fuzzy_get(dct, key, closest): with closest = true it takes the single
best difflib match over the keys with cutoff 0 (every candidate passes the
cutoff, and next() over an empty candidate list raises StopIteration);
with closest = false it is a plain dct.get(key, None).  The unused
globs branch of the source (globs is never passed by any caller) is
omitted. -/
def fuzzy_get {β : Type} (dct : List (List Char × β)) (key : List Char) (closest : Bool) :
    Except PyErr (Option β) :=
  if closest then
    match dct.map Prod.fst with
    | [] => Except.error PyErr.stopIteration
    | x :: xs => Except.ok (lookupA dct (bestFold key x xs))
  else Except.ok (lookupA dct key)

/-! ### Board position cache and set_field

The cached target board (the _board tuple threaded through every item) maps
a status key to the ordered list of the item ids in that column.  The
status key is Option Value because the shared dict uses both None (items
whose Status field has no value) and option-id strings as keys.  Columns
hold item ids; two distinct board items never compare dict-equal in the
source, so id equality models the list membership tests faithfully. -/

/-- An item id on the target board. -/
abbrev ItemId := List Char

/-- A key of the cached board: None or an option id. -/
abbrev StatusKey := Option Value

/-- The cached board: status key to ordered column of item ids. -/
abbrev Board := List (StatusKey × List ItemId)

/-- One option of a single-select destination field. -/
structure FieldOpt where
  id : List Char
  name : List Char
deriving DecidableEq, Repr

/-- A destination field descriptor: options is some for single-select
fields ("options" in field) and none otherwise. -/
structure Field where
  id : List Char
  name : List Char
  options : Option (List FieldOpt)
deriving DecidableEq, Repr

/-- A target item as set_field and the cache see it: its id, its stored
field values (field id to value, absent binding = no value, the None
result of field_value), and its current _board status pointer. -/
structure CItem where
  id : ItemId
  fieldValues : List (List Char × Value)
  status : StatusKey
deriving DecidableEq, Repr

/-- field_value(item, field): the value stored on the item for the field,
None when the item has no node for that field id. -/
def field_value (it : CItem) (f : Field) : Option Value :=
  lookupA it.fieldValues f.id

/-- Replace the column stored under key k. -/
def setBoard (bd : Board) (k : StatusKey) (col : List ItemId) : Board :=
  bd.map (fun p => if p.1 = k then (k, col) else p)

/-- cache_is_after(item, after): board[status] raises KeyError when the
status key is absent; col.index(item) raises ValueError when the item is
not in its column; next() over the predecessor search raises StopIteration
when no entry has the given id.  With after = None the expected index is
-1 + 1 = 0. -/
def cache_is_after (bd : Board) (it : CItem) (after : Option ItemId) : Except PyErr Bool :=
  match lookupA bd it.status with
  | none => Except.error PyErr.keyError
  | some col =>
    match col.findIdx? (fun x => x = it.id) with
    | none => Except.error PyErr.valueError
    | some i =>
      match after with
      | none => Except.ok (decide (i = 0))
      | some a =>
        match col.findIdx? (fun x => x = a) with
        | none => Except.error PyErr.stopIteration
        | some ia => Except.ok (decide (i = ia + 1))

/-- cache_after(item, after): same failure modes as cache_is_after, except
that the item is removed from the column first, so the predecessor is
looked up in the column without the item, and the item is reinserted right
after it (Python list.insert never goes out of range here). -/
def cache_after (bd : Board) (it : CItem) (after : Option ItemId) : Except PyErr Board :=
  match lookupA bd it.status with
  | none => Except.error PyErr.keyError
  | some col =>
    if it.id ∈ col then
      let col1 := col.erase it.id
      match after with
      | none => Except.ok (setBoard bd it.status (it.id :: col1))
      | some a =>
        match col1.findIdx? (fun x => x = a) with
        | none => Except.error PyErr.stopIteration
        | some ia => Except.ok (setBoard bd it.status (col1.insertIdx (ia + 1) it.id))
    else Except.error PyErr.valueError

/-- cache_after_new(item, new_status): board.get(status, []) never raises;
the item is removed from its old column if present, appended to the tail of
the new column (dict.setdefault), and its status pointer updated. -/
def cache_after_new (bd : Board) (it : CItem) (newStatus : StatusKey) : Board × CItem :=
  let bd1 :=
    match lookupA bd it.status with
    | some col => if it.id ∈ col then setBoard bd it.status (col.erase it.id) else bd
    | none => bd
  let bd2 :=
    match lookupA bd1 newStatus with
    | some col => setBoard bd1 newStatus (col ++ [it.id])
    | none => bd1 ++ [(newStatus, [it.id])]
  (bd2, { it with status := newStatus })

/-- The conversion strategy argument of set_field, already lowercased and
defaulted by the engine (line 284 of the source). -/
inductive MatchKind where
  | closest
  | exact
  | scale
deriving DecidableEq, Repr

/-- The remote mutation calls the embedded fragments can issue. -/
inductive Call where
  | delValue : List Char → Call
  | setOption : List Char → Value → Call
  | setNumber : List Char → Value → Call
  | setOrder : ItemId → Option ItemId → Call
  | updateBody : List Char → Call
deriving DecidableEq, Repr

/-- The ids of the options of a single-select field. -/
def optionIds (opts : List FieldOpt) : List (List Char) := opts.map FieldOpt.id

/-- The value-conversion prefix of set_field (source lines 530-539):
Scale looks the source value up in the source domain (ValueError when
absent) and indexes the destination options at
round(pos / len(options) * len(new_opt)) with no clamping, so an index at
or beyond the option count raises IndexError.  Otherwise, a value that is
not already a valid option id is resolved through fuzzy_get over the
option names (Closest) or an exact name lookup (otherwise); feeding a
number to difflib would raise TypeError.  Fields without options pass the
value through unchanged. -/
def convertValue (f : Field) (value0 : Value) (mk : MatchKind) (options : List Value) :
    Except PyErr (Option Value) :=
  match f.options with
  | some newOpt =>
    if mk = MatchKind.scale ∧ options ≠ [] then
      match options.findIdx? (fun x => x = value0) with
      | none => Except.error PyErr.valueError
      | some pos =>
        match newOpt.get? (pyRoundDiv (pos * newOpt.length) options.length) with
        | none => Except.error PyErr.indexError
        | some o => Except.ok (some (Value.str o.id))
    else if (match value0 with
             | Value.str s => decide (s ∈ optionIds newOpt)
             | Value.num _ => false) then
      Except.ok (some value0)
    else
      match value0 with
      | Value.num _ => Except.error PyErr.typeError
      | Value.str s =>
        match fuzzy_get (newOpt.map (fun o => (o.name, o))) s (mk = MatchKind.closest) with
        | Except.error e => Except.error e
        | Except.ok r => Except.ok (r.map (fun o => Value.str o.id))
  | none => Except.ok (some value0)

/-- set_field(proj, item, field, value, gh_query, match, options), source
lines 529-561: convert the value, then compare it with the stored field
value and return False with no remote call when they are equal; a None
value issues a clear-field call; otherwise a set call is issued (the
source picks gh_set_number for every non-option field because
type(value) == int or float is always truthy) and a Status write
additionally moves the item to the tail of the new cached column.  The
field_stats tally has no behavioural effect and is not modelled. -/
def set_field (bd : Board) (it : CItem) (f : Field) (value0 : Value) (mk : MatchKind)
    (options : List Value) : Except PyErr (Bool × List Call × Board × CItem) :=
  match convertValue f value0 mk options with
  | Except.error e => Except.error e
  | Except.ok v =>
    if field_value it f = v then Except.ok (false, [], bd, it)
    else
      match v with
      | none => Except.ok (true, [Call.delValue f.id], bd, it)
      | some w =>
        let c := if f.options.isSome then Call.setOption f.id w else Call.setNumber f.id w
        if f.name = ("Status".data) then
          let (bd2, it2) := cache_after_new bd it (some w)
          Except.ok (true, [c], bd2, it2)
        else Except.ok (true, [c], bd, it)

/-- The Position step of the engine (source lines 289-304): if the cache
already reports the item right after the computed predecessor, no call is
made; otherwise a reposition call is issued and the cache updated to match
(a failure inside cache_after after the call was issued is surfaced as the
error alone). -/
def positionStep (bd : Board) (it : CItem) (after : Option ItemId) :
    Except PyErr (List Call × Board) :=
  match cache_is_after bd it after with
  | Except.error e => Except.error e
  | Except.ok true => Except.ok ([], bd)
  | Except.ok false =>
    match cache_after bd it after with
    | Except.error e => Except.error e
    | Except.ok bd2 => Except.ok ([Call.setOrder it.id after], bd2)

/-! ### The per-issue identity/creation/seen step of sync_workspace

Source lines 236-277.  The items table maps an identity key to either a
real board item (one with board membership, added via gh_add_item or read
in the initial board scan) or a fake content-only record (the placeholder
get_issue stores when it fetches an issue that is not on the board).  The
local item variable of the loop body additionally takes the Python values
None (identity not in the table) and the empty dict (the linked-PR
suppression), whose falsiness drives the Seen marking. -/

/-- The (owner, repo, number) identity of an issue or pull request. -/
abbrev IKey := List Char × List Char × Nat

/-- What the items table stores under a key. -/
inductive ItemKind where
  | fake
  | real
deriving DecidableEq, Repr

/-- The loop-local item variable after the archived/linked/create chain. -/
inductive LocalItem where
  | empty
  | itm : ItemKind → LocalItem
deriving DecidableEq, Repr

/-- Python truthiness of the local item: only the empty dict is falsy. -/
def localTruthy : LocalItem → Bool
  | LocalItem.empty => false
  | LocalItem.itm _ => true

/-- The slice of a source issue that drives the step: its identity, whether
its repository is archived, and whether the linked-PR suppression fires
(zh_value("Linked Issues") is truthy). -/
structure SIssue where
  key : IKey
  archived : Bool
  linked : Bool
deriving DecidableEq, Repr

/-- Python dict assignment dct[k] = v over an association list: replace
the binding in place or append a new key. -/
def setA {α : Type} [DecidableEq α] {β : Type} : List (α × β) → α → β → List (α × β)
  | [], k, v => [(k, v)]
  | p :: t, k, v => if p.1 = k then (k, v) :: t else p :: setA t k v

/-- The per-run mutable state the step reads and writes. -/
structure SyncSt where
  items : List (IKey × ItemKind)
  seen : List IKey
deriving DecidableEq, Repr

/-- The observable outcome of one step. -/
structure StepRes where
  st : SyncSt
  created : Bool
  fieldWork : Bool
deriving DecidableEq, Repr

/-- One iteration of the issue loop: table lookup (a miss stores a fake
content-only record, the get_issue placeholder), the archived-repository
skip, the linked-PR suppression (item becomes the empty dict), creation
when the local item is still None, then the Seen guard: an identity
already in seen skips all field work, otherwise a truthy item is marked
Seen and the field loop runs. -/
def sync_step (st : SyncSt) (iss : SIssue) : StepRes :=
  let found := lookupA st.items iss.key
  let items1 :=
    match found with
    | some _ => st.items
    | none => setA st.items iss.key ItemKind.fake
  if iss.archived then ⟨⟨items1, st.seen⟩, false, false⟩
  else
    let r :=
      if iss.linked then (items1, LocalItem.empty, false)
      else
        match found with
        | none => (setA items1 iss.key ItemKind.real, LocalItem.itm ItemKind.real, true)
        | some k => (items1, LocalItem.itm k, false)
    if iss.key ∈ st.seen then ⟨⟨r.1, st.seen⟩, r.2.2, false⟩
    else
      let seen2 := if localTruthy r.2.1 then iss.key :: st.seen else st.seen
      ⟨⟨r.1, seen2⟩, r.2.2, true⟩

/-- One log entry per processed issue. -/
structure LogEntry where
  key : IKey
  created : Bool
  fieldWork : Bool
deriving DecidableEq, Repr

/-- The issue loop: thread the state, log each step. -/
def sync_run (st : SyncSt) : List SIssue → SyncSt × List LogEntry
  | [] => (st, [])
  | i :: rest =>
    let r := sync_step st i
    let rec2 := sync_run r.st rest
    (rec2.1, ⟨i.key, r.created, r.fieldWork⟩ :: rec2.2)

/-! ### Transport errors: the initial paginated read and the mutation loop

The source contains no try/except whatsoever, so any exception raised by a
gql execute call unwinds through merge_workspaces/sync_workspace and aborts
the process.  The paginated initial read (source lines 96-108) and the
per-item mutation sequence are modelled as folds in the Except monad: a
bind chain with no handler is exactly straight-line Python with no
try/except. -/

/-- One page of the initial board read. -/
structure PageRes where
  nodes : List Nat
  hasNext : Bool
deriving DecidableEq, Repr

/-- The initial full-board read: drain pages until hasNextPage is false; a
failing fetch propagates immediately. -/
def read_items : List (Except PyErr PageRes) → Except PyErr (List Nat)
  | [] => Except.ok []
  | r :: rest =>
    match r with
    | Except.error e => Except.error e
    | Except.ok p =>
      if p.hasNext then
        match read_items rest with
        | Except.error e => Except.error e
        | Except.ok l => Except.ok (p.nodes ++ l)
      else Except.ok p.nodes

/-- The per-item mutation sequence of the reconciliation loop: each entry
is the outcome of one mutation call for one item; with no handler in the
source, the first error unwinds and the remaining items are never
processed.  Returns the number of items processed on success. -/
def run_mutations : List (Except PyErr Unit) → Except PyErr Nat
  | [] => Except.ok 0
  | a :: rest =>
    match a with
    | Except.error e => Except.error e
    | Except.ok _ =>
      match run_mutations rest with
      | Except.error e => Except.error e
      | Except.ok n => Except.ok (n + 1)

/-! ### set_text: the delimited-region body rewrite (source lines 624-652) -/

/-- Index of the first occurrence of needle in hay (Python str.find,
restricted to found/not-found as Option). -/
def findSub (needle : List Char) : List Char → Option Nat
  | [] => if needle = [] then some 0 else none
  | c :: t =>
    if needle.isPrefixOf (c :: t) then some 0
    else (findSub needle t).map (fun n => n + 1)

/-- Python substring containment (needle in hay). -/
def containsSub (needle hay : List Char) : Bool := (findSub needle hay).isSome

/-- Python s.split(sep, 1): the part before the first occurrence of sep and,
when sep occurs, the remainder after it. -/
def splitOnce (sep s : List Char) : List Char × Option (List Char) :=
  match findSub sep s with
  | none => (s, none)
  | some i => (s.take i, some (s.drop (i + sep.length)))

/-- str.replace of every LF by CRLF, as applied to the generated region. -/
def crlfify : List Char → List Char
  | [] => []
  | c :: t => if c = '\n' then '\r' :: '\n' :: crlfify t else c :: crlfify t

/-- The accumulated dependency text: for every title with a nonempty line
list, a "## title" subheading followed by its lines, each preceded by a
newline (the f-string concatenation of the source). -/
def depsText (deps : List (List Char × List (List Char))) : List Char :=
  deps.foldl
    (fun acc p =>
      let acc2 := if p.2 ≠ [] then acc ++ ('\n' :: '#' :: '#' :: ' ' :: p.1) ++ ['\n'] else acc
      p.2.foldl (fun a l => a ++ '\n' :: l) acc2)
    []

/-- The region delimiter written and searched by set_text:
CRLF, "# ", the heading, CRLF. -/
def sepOf (heading : List Char) : List Char :=
  '\r' :: '\n' :: '#' :: ' ' :: (heading ++ ['\r', '\n'])

/-- The kept tail of the remainder after the delimiter: it is kept from
its first "\r\n# " when the cheaper "\n# " test succeeds, but when the
remainder contains a bare-LF heading and no CRLF one, str.find returns -1
and Python rest[-1:] keeps only the final character; with no heading in
the remainder it is dropped entirely. -/
def stRest (heading old_body : List Char) : List Char :=
  let rest0 := (splitOnce (sepOf heading) old_body).2.getD []
  if containsSub ['\n', '#', ' '] rest0 then
    match findSub ['\r', '\n', '#', ' '] rest0 with
    | some i => rest0.drop i
    | none => rest0.drop (rest0.length - 1)
  else []

/-- The freshly generated region: when any dependency lines exist, the
heading plus the accumulated text, CRLF-normalised; otherwise empty. -/
def stText (heading : List Char) (deps : List (List Char × List (List Char))) : List Char :=
  let text0 := depsText deps
  if text0 ≠ [] then crlfify ('\n' :: '#' :: ' ' :: (heading ++ ['\n']) ++ text0) else []

/-- The body set_text computes: everything before the first delimiter
occurrence, then the fresh region, then the kept tail of the remainder. -/
def set_text_body (heading old_body : List Char) (deps : List (List Char × List (List Char))) :
    List Char :=
  (splitOnce (sepOf heading) old_body).1 ++ stText heading deps ++ stRest heading old_body

/-- Whether set_text issues the remote body update: never when the item has
no _deps buffer at all, otherwise exactly when the computed body differs
from the current one. -/
def set_text_write (heading old_body : List Char)
    (deps : Option (List (List Char × List (List Char)))) : Bool :=
  match deps with
  | none => false
  | some d => decide (set_text_body heading old_body d ≠ old_body)

/-! ### add_text and the end-of-run flush (source lines 605-652) -/

/-- A target document (issue or PR body) as the text aggregator sees it:
its repository owner, its url, its current body, and the _deps buffer
(none until add_text first touches the document). -/
structure Doc where
  owner : List Char
  url : List Char
  body : List Char
  deps : Option (List (List Char × List (List Char)))
deriving DecidableEq, Repr

/-- Append a line under a title in the _deps buffer
(deps.setdefault(name, []).append(text)). -/
def depsAppend (d : List (List Char × List (List Char))) (name text : List Char) :
    List (List Char × List (List Char)) :=
  match d.find? (fun p => p.1 = name) with
  | some _ => d.map (fun p => if p.1 = name then (p.1, p.2 ++ [text]) else p)
  | none => d ++ [(name, [text])]

/-- add_text(gh_issue, name, text, proj): the _deps buffer is created by
setdefault BEFORE the cross-organization guard, so a skipped document is
left with an (empty) buffer; the guard compares the project owner with the
document repository owner (same_org with a project argument) and reports a
skip; otherwise the line is appended unless already present (returning the
falsy None on a duplicate, modelled as false). -/
def add_text (projOwner : List Char) (doc : Doc) (name text : List Char) : Doc × Bool :=
  let doc1 := { doc with deps := some (doc.deps.getD []) }
  if doc1.owner ≠ projOwner then (doc1, false)
  else
    let d := doc1.deps.getD []
    let cur := (lookupA d name).getD []
    if text ∈ cur then (doc1, false)
    else ({ doc1 with deps := some (depsAppend d name text) }, true)

/-- The end-of-run flush of one document (the set_text call of
merge_workspaces, lines 164-169): skipped when the document was never
touched by add_text, otherwise the body update call is issued exactly when
the computed body differs. -/
def flush_doc (heading : List Char) (doc : Doc) : Bool × List Call :=
  match doc.deps with
  | none => (false, [])
  | some d =>
    if set_text_body heading doc.body d ≠ doc.body then (true, [Call.updateBody doc.url])
    else (false, [])

/-! ### The pruner (source lines 171-189) -/

/-- One tuple of the prune candidate set: the identity key (None for a
draft item, whose content has no repository), the title, the item id. -/
structure PrunEntry where
  key : Option IKey
  title : Option (List Char)
  id : List Char
deriving DecidableEq, Repr

/-- A row of the items table as the pruner sees it: entries without a board
item id (the fake content-only records of get_issue) are filtered out of
the candidate set. -/
structure TItem where
  key : Option IKey
  title : Option (List Char)
  id : Option (List Char)
deriving DecidableEq, Repr

/-- all_items of the source: keep only rows with a board item id. -/
def toEntries (l : List TItem) : List PrunEntry :=
  l.filterMap (fun i => i.id.map (fun x => ⟨i.key, i.title, x⟩))

/-- The set difference all_items - added_items (set iteration order is
abstracted as the candidate list order). -/
def prune_candidates (allEntries seenEntries : List PrunEntry) : List PrunEntry :=
  allEntries.filter (fun t => t ∉ seenEntries)

/-- The removal loop: a draft tuple (key None) raises TypeError, because
the skip message interpolates repo[0] while repo is None; a non-draft
tuple is reported only under disable_remove and deleted otherwise.
Returns (removed ids, reported-only ids). -/
def prune_loop (disable : Bool) : List PrunEntry → Except PyErr (List (List Char) × List (List Char))
  | [] => Except.ok ([], [])
  | t :: rest =>
    match t.key with
    | none => Except.error PyErr.typeError
    | some _ =>
      match prune_loop disable rest with
      | Except.error e => Except.error e
      | Except.ok r =>
        if disable then Except.ok (r.1, t.id :: r.2)
        else Except.ok (t.id :: r.1, r.2)

/-! ### The field mapping resolver (source lines 135-143) and the engine
dispatch (lines 281-339) -/

/-- A destination descriptor as stored in all_fields: a real board field,
the synthetic TEXT destination, or the synthetic Position marker. -/
inductive DstDescr where
  | real : Field → DstDescr
  | text : DstDescr
  | positionF : DstDescr
deriving DecidableEq, Repr

/-- field.get("name"): TEXT has no name key, the Position marker is
dict(name="Position"). -/
def dstName : DstDescr → Option (List Char)
  | DstDescr.real f => some f.name
  | DstDescr.text => none
  | DstDescr.positionF => some ("Position".data)

/-- Python "SRC:DST:CONV".split(":"). -/
def splitColon : List Char → List (List Char)
  | [] => [[]]
  | c :: t =>
    let r := splitColon t
    if c = ':' then [] :: r
    else
      match r with
      | [] => [[c]]
      | h :: t2 => (c :: h) :: t2

/-- src, tgt, *conv = mapping.split(":") if ":" in mapping else
(mapping, mapping): a colon-free mapping maps the field onto itself with
no converter. -/
def parse_mapping (m : List Char) : List Char × List Char × List (List Char) :=
  if ':' ∈ m then
    match splitColon m with
    | src :: tgt :: conv => (src, tgt, conv)
    | _ => (m, m, [])
  else (m, m, [])

/-- One resolved destination entry: the field descriptor (None when the
destination name is unknown to all_fields) and the converter name. -/
abbrev FEntry := Option DstDescr × Option (List Char)

/-- tfields.setdefault(src, []).append(entry): append the entry to the
existing destination list of src, or open a new binding at the end. -/
def tfieldsAdd : List (List Char × List FEntry) → List Char → FEntry →
    List (List Char × List FEntry)
  | [], src, e => [(src, [e])]
  | p :: t, src, e =>
    if p.1 = src then (p.1, p.2 ++ [e]) :: t else p :: tfieldsAdd t src e

/-- Processing of one mapping string into the layer table: append
(all_fields.get(tgt), conv[0] if conv else None) under its source key. -/
def layerStep (allFields : List (List Char × DstDescr))
    (t : List (List Char × List FEntry)) (m : List Char) : List (List Char × List FEntry) :=
  let pm := parse_mapping m
  tfieldsAdd t pm.1 (lookupA allFields pm.2.1, pm.2.2.head?)

/-- One layer of the mapping table. -/
def build_layer (allFields : List (List Char × DstDescr)) (ms : List (List Char)) :
    List (List Char × List FEntry) :=
  ms.foldl (layerStep allFields) []

/-- dict.update: assign every binding of the update layer into the base,
existing keys replaced in place, new keys appended in layer order. -/
def dictUpdate (base upd : List (List Char × List FEntry)) : List (List Char × List FEntry) :=
  upd.foldl (fun b q => setA b q.1 q.2) base

/-- fields = {} updated with the default layer then the user layer
(source lines 136-143): tfields is rebuilt per layer, so a user layer that
mentions a source key replaces the whole default destination list of that
key. -/
def resolve_fields (allFields : List (List Char × DstDescr)) (defaults users : List (List Char)) :
    List (List Char × List FEntry) :=
  dictUpdate (build_layer allFields defaults) (build_layer allFields users)

/-- The value the engine computed for a source field, as the dispatch sees
it: Python None, a scalar, or a list of sub-references. -/
inductive EngArg where
  | vnone
  | vstr : List Char → EngArg
  | vlist : List (List Char) → EngArg
deriving DecidableEq, Repr

/-- Python truthiness of the engine value (None, "" and [] are falsy). -/
def truthyArg : EngArg → Bool
  | EngArg.vnone => false
  | EngArg.vstr s => s ≠ []
  | EngArg.vlist l => l ≠ []

/-- What the engine does with one (destination, value) pair. -/
inductive StepAct where
  | position
  | skipped
  | textList
  | linkedPRs
  | subProp
  | textScalar
  | noItem
  | setF
deriving DecidableEq, Repr

/-- field and field.get("name") == "Position" of line 289. -/
def isPositionDst : Option DstDescr → Bool
  | some d => dstName d = some ("Position".data)
  | none => false

/-- The elif chain of the field loop (source lines 289-337): the Position
branch needs a truthy item and a destination named Position; then a falsy
value or a None destination is skipped with no error (the continue of line
307); a list value goes to the text aggregator, the linked-PR updater or
per-sub-item propagation; a scalar goes to the text aggregator, is dropped
without an item, or reaches set_field. -/
def dispatch_field (itemTruthy : Bool) (dst : Option DstDescr) (value : EngArg) : StepAct :=
  if itemTruthy && isPositionDst dst then StepAct.position
  else if !truthyArg value || dst.isNone then StepAct.skipped
  else
    match value, dst with
    | EngArg.vlist _, some DstDescr.text => StepAct.textList
    | EngArg.vlist _, some d =>
      if dstName d = some ("Linked pull requests".data) then StepAct.linkedPRs
      else StepAct.subProp
    | _, some DstDescr.text => StepAct.textScalar
    | _, _ => if itemTruthy = false then StepAct.noItem else StepAct.setF

/-! ### Concrete instances used by the claim theorems and witnesses -/

/-- The default ZenHub story-point scale (source line 404). -/
def storyPoints : List Value := [40, 21, 13, 8, 5, 3, 2, 1].map (fun n => Value.num n)

/-- A destination single-select field with three options (the Scale
boundary instance of the spec). -/
def threeOptField : Field :=
  { id := ("sizeid".data), name := ("Size".data),
    options := some [⟨("optA".data), ("XS".data)⟩, ⟨("optB".data), ("M".data)⟩,
                     ⟨("optC".data), ("XL".data)⟩] }

/-- A plain (option-free) destination field. -/
def plainField : Field := { id := ("pf".data), name := ("Estimate".data), options := none }

/-- An item already holding the value 3 for plainField. -/
def itemWithThree : CItem :=
  { id := ("i9".data), fieldValues := [(("pf".data), Value.num 3)], status := none }

/-- A one-column cached board holding i1 then i2. -/
def twoItemBoard : Board := [(none, [("i1".data), ("i2".data)])]

/-- The second item of twoItemBoard. -/
def secondItem : CItem := { id := ("i2".data), fieldValues := [], status := none }

/-- A body whose trailing content after the region starts a heading
preceded by a bare LF (no CRLF). -/
def lfHeadingBody : List Char := ("A\r\n# Dependencies\r\nx\n# B").data

/-- A body whose trailing content after the region starts a CRLF heading. -/
def crlfHeadingBody : List Char := ("A\r\n# Dependencies\r\nx\r\n# B").data

/-- A pull request owned by orgA whose body already holds a Dependencies
region, while the target board belongs to orgT. -/
def crossOrgPr : Doc :=
  { owner := ("orgA".data), url := ("prUrl".data),
    body := ("Hello\r\n# Dependencies\r\n- old").data, deps := none }

/-- A sample identity key. -/
def wKey : IKey := (("o".data), ("r".data), 1)

/-- A minimal all_fields table for the mapping witness. -/
def wAllFields : List (List Char × DstDescr) :=
  [(("Size".data), DstDescr.real plainField), (("Text".data), DstDescr.text),
   (("Position".data), DstDescr.positionF)]

/-- A draft board item tuple: no linkable content, so its key is None. -/
def draftEntry : PrunEntry := { key := none, title := none, id := ("d1".data) }

/-- A non-draft board item tuple. -/
def liveEntry : PrunEntry :=
  { key := some (("o".data), ("r".data), 1), title := some ("t".data), id := ("i1".data) }

/-! ### Helper lemmas -/

theorem lookupA_cons {α : Type} [DecidableEq α] {β : Type} (p : α × β) (t : List (α × β))
    (k : α) : lookupA (p :: t) k = if p.1 = k then some p.2 else lookupA t k := by
  by_cases h : p.1 = k <;> simp [lookupA, List.find?, h]

theorem lookupA_setA {α : Type} [DecidableEq α] {β : Type}
    (l : List (α × β)) (k k2 : α) (v : β) :
    lookupA (setA l k v) k2 = if k2 = k then some v else lookupA l k2 := by
  induction l with
  | nil =>
    rcases eq_or_ne k2 k with h | h
    · subst h; simp [setA, lookupA_cons]
    · simp [setA, lookupA_cons, Ne.symm h, h, lookupA]
  | cons p t ih =>
    by_cases hp : p.1 = k
    · have hset : setA (p :: t) k v = (k, v) :: t := by simp [setA, hp]
      rw [hset, lookupA_cons, lookupA_cons]
      rcases eq_or_ne k2 k with h | h
      · subst h; simp [hp]
      · have h1 : ¬((k, v).1 = k2) := fun hh => h hh.symm
        have h2 : ¬(p.1 = k2) := by rw [hp]; exact fun hh => h hh.symm
        simp [h1, h2, h]
    · have hset : setA (p :: t) k v = p :: setA t k v := by simp [setA, hp]
      rw [hset, lookupA_cons, lookupA_cons, ih]
      by_cases h2 : p.1 = k2
      · have h3 : k2 ≠ k := fun hh => hp (by rw [h2, hh])
        simp [h2, h3]
      · simp [h2]

theorem findIdx?_some_mem {α : Type} (p : α → Bool) (l : List α) (i : Nat)
    (h : l.findIdx? p = some i) : ∃ x ∈ l, p x = true := by
  induction l generalizing i with
  | nil => simp [List.findIdx?] at h
  | cons a t ih =>
    rw [List.findIdx?_cons] at h
    by_cases hp : p a
    · exact ⟨a, List.mem_cons_self a t, hp⟩
    · simp [hp] at h
      match h2 : t.findIdx? p with
      | some j =>
        obtain ⟨x, hx, hpx⟩ := ih j h2
        exact ⟨x, List.mem_cons_of_mem a hx, hpx⟩
      | none => rw [h2] at h; simp at h

theorem mem_of_findIdx?_eq (a : List Char) (l : List (List Char)) (i : Nat)
    (h : l.findIdx? (fun x => x = a) = some i) : a ∈ l := by
  obtain ⟨x, hx, hpx⟩ := findIdx?_some_mem _ l i h
  have hxa : x = a := by simpa using hpx
  rwa [hxa] at hx

/-! ### Claim C10 -/

/-- C10: the Board Position Cache operations are partial: cache_is_after
and cache_after return a result only when the status column of the item
exists on the cached board, the column contains the item, and, when a
predecessor id is given, the column contains an entry with that id; on any
input violating one of these conditions they raise (KeyError, ValueError
or StopIteration) instead of returning a value. -/
theorem c10_cache_ops_partiality (bd : Board) (it : CItem) (after : Option ItemId) :
    (okE (cache_is_after bd it after) = true →
      ∃ col, lookupA bd it.status = some col ∧ it.id ∈ col ∧
        ∀ a, after = some a → a ∈ col) ∧
    (okE (cache_after bd it after) = true →
      ∃ col, lookupA bd it.status = some col ∧ it.id ∈ col ∧
        ∀ a, after = some a → a ∈ col) := by
  constructor
  · intro h
    unfold cache_is_after at h
    split at h
    · simp [okE] at h
    · next col h1 =>
      refine ⟨col, h1, ?_, ?_⟩
      · split at h
        · simp [okE] at h
        · next i h2 => exact mem_of_findIdx?_eq it.id col i h2
      · intro a ha
        subst ha
        split at h
        · simp [okE] at h
        · next i h2 =>
          dsimp only at h
          split at h
          · simp [okE] at h
          · next ia h3 => exact mem_of_findIdx?_eq a col ia h3
  · intro h
    unfold cache_after at h
    split at h
    · simp [okE] at h
    · next col h1 =>
      by_cases hm : it.id ∈ col
      · refine ⟨col, h1, hm, ?_⟩
        intro a ha
        subst ha
        rw [if_pos hm] at h
        dsimp only at h
        split at h
        · simp [okE] at h
        · next ia h3 =>
          exact (col.erase_subset it.id) (mem_of_findIdx?_eq a (col.erase it.id) ia h3)
      · rw [if_neg hm] at h; simp [okE] at h

/-- Witness for C10 at a concrete converged input. -/
theorem c10_cache_ops_partiality_witness :
    (∃ col, lookupA twoItemBoard secondItem.status = some col ∧ secondItem.id ∈ col ∧
      ∀ a, some ("i1".data) = some a → a ∈ col) ∧
    (∃ col, lookupA twoItemBoard secondItem.status = some col ∧ secondItem.id ∈ col ∧
      ∀ a, some ("i1".data) = some a → a ∈ col) :=
  ⟨(c10_cache_ops_partiality twoItemBoard secondItem (some ("i1".data))).1 (by rfl),
   (c10_cache_ops_partiality twoItemBoard secondItem (some ("i1".data))).2 (by rfl)⟩

/-! ### Claim C1 -/

/-- C1: on a converged target-board state the engine issues no remote
mutation: set_field returns False with no remote call whenever the
converted value equals the value currently cached for the field, and the
Position step issues no reposition call (and leaves the cache unchanged)
whenever the cache already reports the item immediately after its computed
predecessor. -/
theorem c1_converged_no_mutation
    (bd : Board) (it : CItem) (f : Field) (v0 : Value) (mk : MatchKind) (opts : List Value)
    (v : Option Value)
    (hconv : convertValue f v0 mk opts = Except.ok v)
    (hcur : field_value it f = v)
    (bd2 : Board) (it2 : CItem) (after : Option ItemId)
    (hpos : cache_is_after bd2 it2 after = Except.ok true) :
    set_field bd it f v0 mk opts = Except.ok (false, [], bd, it) ∧
    positionStep bd2 it2 after = Except.ok ([], bd2) := by
  constructor
  · simp [set_field, hconv, hcur]
  · simp [positionStep, hpos]

/-- Witness for C1: an item whose plain field already stores the desired
number, and a board where i2 already sits right after i1. -/
theorem c1_converged_no_mutation_witness :
    set_field twoItemBoard itemWithThree plainField (Value.num 3) MatchKind.closest [] =
      Except.ok (false, [], twoItemBoard, itemWithThree) ∧
    positionStep twoItemBoard secondItem (some ("i1".data)) = Except.ok ([], twoItemBoard) :=
  c1_converged_no_mutation twoItemBoard itemWithThree plainField (Value.num 3)
    MatchKind.closest [] (some (Value.num 3)) rfl rfl
    twoItemBoard secondItem (some ("i1".data)) rfl

/-! ### Claim C2 -/

/-- C2: the Scale conversion is not clamped.  For the source scale
[40, 21, 13, 8, 5, 3, 2, 1] and a three-option destination, the value 40
(rank 0) does map to destination option 0, but the value 1 (rank 7) makes
the code compute round(7 / 8 * 3) = 3, index the three destination options
at 3 and raise IndexError instead of returning the last option. -/
theorem c2_scale_conversion_unclamped :
    convertValue threeOptField (Value.num 40) MatchKind.scale storyPoints =
      Except.ok (some (Value.str ("optA".data))) ∧
    convertValue threeOptField (Value.num 1) MatchKind.scale storyPoints =
      Except.error PyErr.indexError ∧
    pyRoundDiv (7 * 3) 8 = 3 :=
  ⟨rfl, rfl, rfl⟩

/-! ### Claim C3 -/

theorem sync_step_created_not_found (st : SyncSt) (iss : SIssue)
    (h : (sync_step st iss).created = true) : lookupA st.items iss.key = none := by
  unfold sync_step at h
  by_cases ha : iss.archived
  · simp [ha] at h
  · by_cases hl : iss.linked
    · by_cases hs : iss.key ∈ st.seen <;> simp [ha, hl, hs] at h
    · cases hf : lookupA st.items iss.key with
      | none => rfl
      | some k => by_cases hs : iss.key ∈ st.seen <;> simp [ha, hl, hs, hf] at h

theorem sync_step_items_self (st : SyncSt) (iss : SIssue) :
    ∃ v, lookupA (sync_step st iss).st.items iss.key = some v := by
  unfold sync_step
  cases hf : lookupA st.items iss.key with
  | some k =>
    by_cases ha : iss.archived
    · exact ⟨k, by simp [ha, hf]⟩
    · by_cases hl : iss.linked
      · by_cases hs : iss.key ∈ st.seen <;> exact ⟨k, by simp [ha, hl, hs, hf]⟩
      · by_cases hs : iss.key ∈ st.seen <;> exact ⟨k, by simp [ha, hl, hs, hf]⟩
  | none =>
    by_cases ha : iss.archived
    · exact ⟨ItemKind.fake, by simp [ha, hf, lookupA_setA]⟩
    · by_cases hl : iss.linked
      · by_cases hs : iss.key ∈ st.seen <;>
          exact ⟨ItemKind.fake, by simp [ha, hl, hs, hf, lookupA_setA]⟩
      · by_cases hs : iss.key ∈ st.seen <;>
          exact ⟨ItemKind.real, by simp [ha, hl, hs, hf, lookupA_setA]⟩

theorem sync_step_items_mono (st : SyncSt) (iss : SIssue) (k : IKey) (v : ItemKind)
    (h : lookupA st.items k = some v) :
    ∃ w, lookupA (sync_step st iss).st.items k = some w := by
  unfold sync_step
  by_cases hk : k = iss.key
  · subst hk
    have := sync_step_items_self st iss
    unfold sync_step at this
    exact this
  · cases hf : lookupA st.items iss.key with
    | some kk =>
      by_cases ha : iss.archived
      · exact ⟨v, by simp [ha, hf, h]⟩
      · by_cases hl : iss.linked
        · by_cases hs : iss.key ∈ st.seen <;> exact ⟨v, by simp [ha, hl, hs, hf, h]⟩
        · by_cases hs : iss.key ∈ st.seen <;> exact ⟨v, by simp [ha, hl, hs, hf, h]⟩
    | none =>
      by_cases ha : iss.archived
      · exact ⟨v, by simp [ha, hf, lookupA_setA, hk, h]⟩
      · by_cases hl : iss.linked
        · by_cases hs : iss.key ∈ st.seen <;>
            exact ⟨v, by simp [ha, hl, hs, hf, lookupA_setA, hk, h]⟩
        · by_cases hs : iss.key ∈ st.seen <;>
            exact ⟨v, by simp [ha, hl, hs, hf, lookupA_setA, hk, h]⟩

theorem sync_step_seen_no_fieldwork (st : SyncSt) (iss : SIssue) (h : iss.key ∈ st.seen) :
    (sync_step st iss).fieldWork = false := by
  unfold sync_step
  by_cases ha : iss.archived <;> simp [ha, h]

theorem sync_step_seen_mono (st : SyncSt) (iss : SIssue) (k : IKey) (h : k ∈ st.seen) :
    k ∈ (sync_step st iss).st.seen := by
  unfold sync_step
  by_cases ha : iss.archived
  · simpa [ha] using h
  · by_cases hs : iss.key ∈ st.seen
    · simpa [ha, hs] using h
    · by_cases hl : iss.linked
      · simpa [ha, hs, hl] using h
      · cases hf : lookupA st.items iss.key with
        | none => simp [ha, hs, hl, hf, localTruthy]; exact Or.inr h
        | some kk => simp [ha, hs, hl, hf, localTruthy]; exact Or.inr h

theorem sync_run_no_create_of_found (issues : List SIssue) :
    ∀ (st : SyncSt) (k : IKey) (v : ItemKind), lookupA st.items k = some v →
      (sync_run st issues).2.countP (fun e => decide (e.key = k) && e.created) = 0 := by
  induction issues with
  | nil => intro st k v _; simp [sync_run]
  | cons i rest ih =>
    intro st k v h
    simp only [sync_run]
    rw [List.countP_cons]
    obtain ⟨w, hw⟩ := sync_step_items_mono st i k v h
    rw [ih (sync_step st i).st k w hw]
    by_cases hk : i.key = k
    · subst hk
      have : (sync_step st i).created = false := by
        cases hc : (sync_step st i).created
        · rfl
        · rw [sync_step_created_not_found st i hc] at h; cases h
      simp [this]
    · simp [hk]

theorem sync_run_created_le_one (issues : List SIssue) :
    ∀ (st : SyncSt) (k : IKey),
      (sync_run st issues).2.countP (fun e => decide (e.key = k) && e.created) ≤ 1 := by
  induction issues with
  | nil => intro st k; simp [sync_run]
  | cons i rest ih =>
    intro st k
    simp only [sync_run]
    rw [List.countP_cons]
    by_cases hk : i.key = k
    · by_cases hc : (sync_step st i).created
      · subst hk
        obtain ⟨w, hw⟩ := sync_step_items_self st i
        rw [sync_run_no_create_of_found rest (sync_step st i).st i.key w hw]
        simp [hc]
      · have := ih (sync_step st i).st k
        simp [hc] at this ⊢
        exact this
    · have := ih (sync_step st i).st k
      simp [hk] at this ⊢
      exact this

theorem sync_run_seen_no_fieldwork (issues : List SIssue) :
    ∀ (st : SyncSt) (k : IKey), k ∈ st.seen →
      (sync_run st issues).2.countP (fun e => decide (e.key = k) && e.fieldWork) = 0 := by
  induction issues with
  | nil => intro st k _; simp [sync_run]
  | cons i rest ih =>
    intro st k h
    simp only [sync_run]
    rw [List.countP_cons]
    rw [ih (sync_step st i).st k (sync_step_seen_mono st i k h)]
    by_cases hk : i.key = k
    · have : (sync_step st i).fieldWork = false :=
        sync_step_seen_no_fieldwork st i (by rwa [hk])
      simp [this]
    · simp [hk]

/-- C3: for every identity key, at most one creation (gh_add_item call)
happens across a whole run, however often and through whatever path the
identity is reached, and an identity that is in the seen table has every
subsequent step of the run skip its field work entirely. -/
theorem c3_at_most_one_create_and_seen_guard (st : SyncSt) (issues : List SIssue) (k : IKey) :
    (sync_run st issues).2.countP (fun e => decide (e.key = k) && e.created) ≤ 1 ∧
    (k ∈ st.seen →
      (sync_run st issues).2.countP (fun e => decide (e.key = k) && e.fieldWork) = 0) :=
  ⟨sync_run_created_le_one issues st k,
   fun h => sync_run_seen_no_fieldwork issues st k h⟩

/-- Witness for C3: a run that reaches the same identity twice, starting
from a state that has already seen it. -/
theorem c3_at_most_one_create_and_seen_guard_witness :
    (sync_run ⟨[], [wKey]⟩ [⟨wKey, false, false⟩, ⟨wKey, false, false⟩]).2.countP
      (fun e => decide (e.key = wKey) && e.created) ≤ 1 ∧
    (sync_run ⟨[], [wKey]⟩ [⟨wKey, false, false⟩, ⟨wKey, false, false⟩]).2.countP
      (fun e => decide (e.key = wKey) && e.fieldWork) = 0 :=
  ⟨(c3_at_most_one_create_and_seen_guard ⟨[], [wKey]⟩
      [⟨wKey, false, false⟩, ⟨wKey, false, false⟩] wKey).1,
   (c3_at_most_one_create_and_seen_guard ⟨[], [wKey]⟩
      [⟨wKey, false, false⟩, ⟨wKey, false, false⟩] wKey).2 (by decide)⟩

/-! ### Claim C4 -/

theorem run_mutations_abort (e : PyErr) (post : List (Except PyErr Unit)) :
    ∀ pre : List (Except PyErr Unit), (∀ a ∈ pre, a = Except.ok ()) →
      run_mutations (pre ++ Except.error e :: post) = Except.error e := by
  intro pre
  induction pre with
  | nil => intro _; simp [run_mutations]
  | cons a t ih =>
    intro hpre
    have ha : a = Except.ok () := hpre a (List.mem_cons_self a t)
    subst ha
    have h2 := ih (fun x hx => hpre x (List.mem_cons_of_mem _ hx))
    simp [run_mutations, h2]

theorem read_items_abort (e : PyErr) (post : List (Except PyErr PageRes)) :
    ∀ pre : List (Except PyErr PageRes),
      (∀ r ∈ pre, ∃ p : PageRes, r = Except.ok p ∧ p.hasNext = true) →
      read_items (pre ++ Except.error e :: post) = Except.error e := by
  intro pre
  induction pre with
  | nil => intro _; simp [read_items]
  | cons a t ih =>
    intro hpre
    obtain ⟨p, hp, hn⟩ := hpre a (List.mem_cons_self a t)
    subst hp
    have h2 := ih (fun x hx => hpre x (List.mem_cons_of_mem _ hx))
    simp [read_items, hn, h2]

/-- C4 counterexample: a timeout raised by the mutation call of the first item
is not caught: the run aborts with the error and the next item is never
processed, refuting the claim that such an error is non-fatal and that
reconciliation continues with the next item. -/
theorem c4_counterexample :
    run_mutations [Except.error PyErr.timeoutError, Except.ok ()] =
      Except.error PyErr.timeoutError ∧
    okE (run_mutations [Except.error PyErr.timeoutError, Except.ok ()]) = false :=
  ⟨rfl, rfl⟩

/-- C4 (amended): the source catches nothing, so a timeout or transport
error raised by the mutation call of a single item propagates and aborts the
run at that point exactly as a failure of the initial full board read
does. -/
theorem c4_all_transport_errors_fatal
    (pre post : List (Except PyErr Unit)) (e : PyErr)
    (hpre : ∀ a ∈ pre, a = Except.ok ())
    (rpre rpost : List (Except PyErr PageRes)) (e2 : PyErr)
    (hrpre : ∀ r ∈ rpre, ∃ p : PageRes, r = Except.ok p ∧ p.hasNext = true) :
    run_mutations (pre ++ Except.error e :: post) = Except.error e ∧
    read_items (rpre ++ Except.error e2 :: rpost) = Except.error e2 :=
  ⟨run_mutations_abort e post pre hpre, read_items_abort e2 rpost rpre hrpre⟩

/-- Witness for C4 (amended): one successful mutation, then a timeout, and
one successfully drained page before a failing page fetch. -/
theorem c4_all_transport_errors_fatal_witness :
    run_mutations ([Except.ok ()] ++ Except.error PyErr.timeoutError :: [Except.ok ()]) =
      Except.error PyErr.timeoutError ∧
    read_items ([Except.ok ⟨[1], true⟩] ++ Except.error PyErr.timeoutError :: []) =
      Except.error PyErr.timeoutError :=
  c4_all_transport_errors_fatal [Except.ok ()] [Except.ok ()] PyErr.timeoutError
    (fun _ ha => List.mem_singleton.mp ha)
    [Except.ok ⟨[1], true⟩] [] PyErr.timeoutError
    (fun _ hr => ⟨⟨[1], true⟩, List.mem_singleton.mp hr, rfl⟩)

/-! ### Claim C5 -/

theorem containsSub_of_isPrefixOf (n s : List Char) (h : n.isPrefixOf s = true) :
    containsSub n s = true := by
  cases s with
  | nil =>
    cases n with
    | nil => rfl
    | cons c t => simp [List.isPrefixOf] at h
  | cons d t => simp [containsSub, findSub, h]

theorem containsSub_cons (n : List Char) (d : Char) (t : List Char)
    (h : containsSub n t = true) : containsSub n (d :: t) = true := by
  unfold containsSub at h ⊢
  unfold findSub
  by_cases hp : n.isPrefixOf (d :: t)
  · simp [hp]
  · rw [if_neg (by simpa using hp)]
    cases hf : findSub n t with
    | none => rw [hf] at h; simp at h
    | some j => simp [hf]

theorem containsSub_of_findSub_cons (c : Char) (n : List Char) :
    ∀ (s : List Char) (i : Nat), findSub (c :: n) s = some i → containsSub n s = true := by
  intro s
  induction s with
  | nil => intro i h; simp [findSub] at h
  | cons d t ih =>
    intro i h
    unfold findSub at h
    by_cases hp : (c :: n).isPrefixOf (d :: t)
    · have h2 : n.isPrefixOf t = true := by
        have := hp
        simp only [List.isPrefixOf, Bool.and_eq_true] at this
        exact this.2
      exact containsSub_cons n d t (containsSub_of_isPrefixOf n t h2)
    · rw [if_neg (by simpa using hp)] at h
      cases hf : findSub (c :: n) t with
      | none => rw [hf] at h; simp at h
      | some j => exact containsSub_cons n d t (ih j hf)

/-- C5 counterexample: for the body "A\r\n# Dependencies\r\nx\n# B" the
trailing content does start a new heading ("\n# B"), yet flush keeps only
the final character: the computed body is "AB", the trailing heading is
gone, and a remote body update is issued — so the claim that such trailing
content is always preserved unchanged is false. -/
theorem c5_counterexample :
    set_text_body ("Dependencies".data) lfHeadingBody [] = ("AB".data) ∧
    containsSub ['\n', '#', ' '] (("x\n# B").data) = true ∧
    containsSub ('#' :: ' ' :: 'B' :: []) (set_text_body ("Dependencies".data) lfHeadingBody [])
      = false ∧
    set_text_write ("Dependencies".data) lfHeadingBody (some []) = true :=
  ⟨rfl, rfl, rfl, rfl⟩

/-- C5 (amended): flush always preserves everything before the region, and
preserves the trailing remainder from its first CRLF heading marker when
one exists (content between the region start and that marker is replaced);
a remainder whose only heading marker is preceded by a bare LF is reduced
to its final character instead; and the remote update is issued exactly
when the computed body differs from the current one. -/
theorem c5_region_replacement
    (heading old_body : List Char) (deps : List (List Char × List (List Char)))
    (r : List Char) (i : Nat)
    (hr : (splitOnce (sepOf heading) old_body).2 = some r)
    (hi : findSub ('\r' :: '\n' :: '#' :: ' ' :: []) r = some i) :
    (∃ tail, set_text_body heading old_body deps =
      (splitOnce (sepOf heading) old_body).1 ++ tail) ∧
    (∃ front, set_text_body heading old_body deps = front ++ r.drop i) ∧
    (set_text_write heading old_body (some deps) = true ↔
      set_text_body heading old_body deps ≠ old_body) := by
  have hcont : containsSub ['\n', '#', ' '] r = true :=
    containsSub_of_findSub_cons '\r' ['\n', '#', ' '] r i hi
  have hrest : stRest heading old_body = r.drop i := by
    unfold stRest
    rw [hr]
    simp only [Option.getD_some]
    rw [if_pos hcont, hi]
  refine ⟨⟨stText heading deps ++ stRest heading old_body, ?_⟩,
          ⟨(splitOnce (sepOf heading) old_body).1 ++ stText heading deps, ?_⟩, ?_⟩
  · unfold set_text_body
    rw [List.append_assoc]
  · unfold set_text_body
    rw [hrest, List.append_assoc]
  · unfold set_text_write
    exact decide_eq_true_iff

/-- Witness for C5 (amended) at a body whose remainder has a CRLF
heading. -/
theorem c5_region_replacement_witness :
    (∃ tail, set_text_body ("Dependencies".data) crlfHeadingBody [] =
      (splitOnce (sepOf ("Dependencies".data)) crlfHeadingBody).1 ++ tail) ∧
    (∃ front, set_text_body ("Dependencies".data) crlfHeadingBody [] =
      front ++ (("x\r\n# B").data).drop 1) ∧
    (set_text_write ("Dependencies".data) crlfHeadingBody (some []) = true ↔
      set_text_body ("Dependencies".data) crlfHeadingBody [] ≠ crlfHeadingBody) :=
  c5_region_replacement ("Dependencies".data) crlfHeadingBody [] (("x\r\n# B").data) 1
    rfl rfl

/-! ### Claim C6 -/

theorem bestFold_mem : ∀ (xs : List (List Char)) (w x : List Char), bestFold w x xs ∈ x :: xs := by
  intro xs
  induction xs with
  | nil => intro w x; simp [bestFold]
  | cons y ys ih =>
    intro w x
    unfold bestFold
    rw [List.foldl_cons]
    by_cases hg : tupGt w y x
    · rw [if_pos hg]
      have h := ih w y
      unfold bestFold at h
      exact List.mem_cons_of_mem x h
    · rw [if_neg hg]
      have h := ih w x
      unfold bestFold at h
      rcases List.mem_cons.mp h with h1 | h1
      · rw [h1]; exact List.mem_cons_self x _
      · exact List.mem_cons_of_mem x (List.mem_cons_of_mem y h1)

theorem lookupA_isSome_of_mem_keys {β : Type} (l : List (List Char × β)) (k : List Char)
    (h : k ∈ l.map Prod.fst) : ∃ v, lookupA l k = some v := by
  induction l with
  | nil => simp at h
  | cons p t ih =>
    rw [List.map_cons] at h
    rcases List.mem_cons.mp h with h1 | h1
    · exact ⟨p.2, by rw [lookupA_cons, if_pos h1.symm]⟩
    · by_cases hp : p.1 = k
      · exact ⟨p.2, by rw [lookupA_cons, if_pos hp]⟩
      · obtain ⟨v, hv⟩ := ih h1
        exact ⟨v, by rw [lookupA_cons, if_neg hp]; exact hv⟩

/-- C6 counterexample: with the keys a then b (a encountered first) and
the source value x both ratios are equal, yet the converter returns the
value bound to b — the tie is not resolved by the first-encountered
option. -/
theorem c6_tie_counterexample :
    ratioPair ("a".data) ("x".data) = ratioPair ("b".data) ("x".data) ∧
    fuzzy_get [(("a".data), 1), (("b".data), 2)] ("x".data) true = Except.ok (some 2) :=
  ⟨rfl, rfl⟩

/-- C6 (amended): Closest conversion is a total function on non-empty
domains — it always selects some option, the one maximising the pair
(similarity ratio, option name) under Python tuple comparison, so a ratio
tie goes to the lexicographically greatest option name rather than the
first-encountered one — and on options [Normal, High Priority] with the
source value high it selects High Priority. -/
theorem c6_closest_total_and_instance {β : Type} (dct : List (List Char × β))
    (key : List Char) (h : dct ≠ []) :
    (∃ v, fuzzy_get dct key true = Except.ok (some v)) ∧
    fuzzy_get [(("Normal".data), 0), (("High Priority".data), 1)] ("high".data) true =
      Except.ok (some 1) ∧
    fuzzy_get [(("a".data), 10), (("b".data), 20)] ("x".data) true = Except.ok (some 20) := by
  refine ⟨?_, by rfl, by rfl⟩
  match dct, h with
  | p :: t, _ =>
    unfold fuzzy_get
    rw [if_pos rfl, List.map_cons]
    have hmem : bestFold key p.1 (t.map Prod.fst) ∈ (p :: t).map Prod.fst := by
      rw [List.map_cons]; exact bestFold_mem _ key p.1
    obtain ⟨v, hv⟩ := lookupA_isSome_of_mem_keys (p :: t) _ hmem
    exact ⟨v, by
      show Except.ok (lookupA (p :: t) (bestFold key p.1 (t.map Prod.fst))) =
        Except.ok (some v)
      rw [hv]⟩

/-- Witness for C6 (amended) on a concrete nonempty domain. -/
theorem c6_closest_total_and_instance_witness :
    (∃ v, fuzzy_get [(("Normal".data), 0), (("High Priority".data), 1)] ("high".data) true =
      Except.ok (some v)) ∧
    fuzzy_get [(("Normal".data), 0), (("High Priority".data), 1)] ("high".data) true =
      Except.ok (some 1) ∧
    fuzzy_get [(("a".data), 10), (("b".data), 20)] ("x".data) true = Except.ok (some 20) :=
  c6_closest_total_and_instance [(("Normal".data), 0), (("High Priority".data), 1)]
    ("high".data) (List.cons_ne_nil _ _)

/-! ### Claim C7 -/

/-- C7: the text aggregator does report the cross-organization linked PR as
skipped and buffers no line for it (add_text returns False), but the _deps
buffer it created before the guard makes the end-of-run flush recompute the
PR body, strip its pre-existing Dependencies region and issue a body update
against the cross-organization PR — the claim that such a PR is never
mutated is violated by the code. -/
theorem c7_cross_org_pr_mutated_by_flush :
    (add_text ("orgT".data) crossOrgPr ("Linked Issues".data)
      ("- [ ] fixes o/r#1\n".data)).2 = false ∧
    (add_text ("orgT".data) crossOrgPr ("Linked Issues".data)
      ("- [ ] fixes o/r#1\n".data)).1.deps = some [] ∧
    flush_doc ("Dependencies".data)
      (add_text ("orgT".data) crossOrgPr ("Linked Issues".data)
        ("- [ ] fixes o/r#1\n".data)).1 = (true, [Call.updateBody ("prUrl".data)]) :=
  ⟨rfl, rfl, rfl⟩

/-! ### Claim C8 -/

/-- C8: the removal pass crashes with TypeError on a draft tuple (repo[0]
is evaluated while repo is None when formatting the skip message) instead
of skipping it, so pruning aborts whenever a draft item is unseen; without
drafts, exactly the unseen candidates are removed, or only reported under
remove-suppression, and content-only table rows without a board item id
never enter the candidate set. -/
theorem c8_pruner_draft_crash :
    prune_loop false [draftEntry, liveEntry] = Except.error PyErr.typeError ∧
    prune_loop false [liveEntry] = Except.ok ([("i1".data)], []) ∧
    prune_loop true [liveEntry] = Except.ok ([], [("i1".data)]) ∧
    prune_candidates (toEntries [⟨some wKey, some ("t".data), none⟩]) [] = [] ∧
    prune_candidates [draftEntry, liveEntry] [liveEntry] = [draftEntry] :=
  ⟨rfl, rfl, rfl, rfl, rfl⟩

/-! ### Claim C9 -/

theorem lookupA_eq_none_of_not_mem_keys {α : Type} [DecidableEq α] {β : Type}
    (l : List (α × β)) (k : α) (h : k ∉ l.map Prod.fst) : lookupA l k = none := by
  induction l with
  | nil => rfl
  | cons p t ih =>
    rw [List.map_cons] at h
    rw [lookupA_cons,
      if_neg (fun hh => h (by rw [← hh]; exact List.mem_cons_self p.1 _)),
      ih (fun hh => h (List.mem_cons_of_mem p.1 hh))]

theorem tfieldsAdd_cons_pos (p : List Char × List FEntry) (t : List (List Char × List FEntry))
    (s : List Char) (e : FEntry) (hp : p.1 = s) :
    tfieldsAdd (p :: t) s e = (p.1, p.2 ++ [e]) :: t := by
  simp [tfieldsAdd, hp]

theorem tfieldsAdd_cons_neg (p : List Char × List FEntry) (t : List (List Char × List FEntry))
    (s : List Char) (e : FEntry) (hp : ¬(p.1 = s)) :
    tfieldsAdd (p :: t) s e = p :: tfieldsAdd t s e := by
  simp [tfieldsAdd, hp]

theorem layerStep_eq (allF : List (List Char × DstDescr))
    (t : List (List Char × List FEntry)) (m : List Char) :
    layerStep allF t m =
      tfieldsAdd t (parse_mapping m).1
        (lookupA allF (parse_mapping m).2.1, (parse_mapping m).2.2.head?) := rfl

theorem dictUpdate_cons (b : List (List Char × List FEntry)) (q : List Char × List FEntry)
    (t : List (List Char × List FEntry)) :
    dictUpdate b (q :: t) = dictUpdate (setA b q.1 q.2) t := rfl

theorem lookupA_tfieldsAdd_self :
    ∀ (t : List (List Char × List FEntry)) (s : List Char) (e : FEntry),
      ∃ l2, lookupA (tfieldsAdd t s e) s = some l2
  | [], s, e => ⟨[e], by simp [tfieldsAdd, lookupA_cons]⟩
  | p :: t, s, e => by
    by_cases hp : p.1 = s
    · refine ⟨p.2 ++ [e], ?_⟩
      rw [tfieldsAdd_cons_pos p t s e hp, lookupA_cons, if_pos hp]
    · obtain ⟨l2, h2⟩ := lookupA_tfieldsAdd_self t s e
      refine ⟨l2, ?_⟩
      rw [tfieldsAdd_cons_neg p t s e hp, lookupA_cons, if_neg hp]
      exact h2

theorem lookupA_tfieldsAdd_isSome :
    ∀ (t : List (List Char × List FEntry)) (s : List Char) (e : FEntry) (k : List Char)
      (w : List FEntry), lookupA t k = some w →
      ∃ w2, lookupA (tfieldsAdd t s e) k = some w2 := by
  intro t
  induction t with
  | nil => intro s e k w h; cases h
  | cons p t2 ih =>
    intro s e k w h
    rw [lookupA_cons] at h
    by_cases hp : p.1 = s
    · by_cases hk : p.1 = k
      · refine ⟨p.2 ++ [e], ?_⟩
        rw [tfieldsAdd_cons_pos p t2 s e hp, lookupA_cons, if_pos hk]
      · rw [if_neg hk] at h
        refine ⟨w, ?_⟩
        rw [tfieldsAdd_cons_pos p t2 s e hp, lookupA_cons, if_neg hk]
        exact h
    · by_cases hk : p.1 = k
      · refine ⟨p.2, ?_⟩
        rw [tfieldsAdd_cons_neg p t2 s e hp, lookupA_cons, if_pos hk]
      · rw [if_neg hk] at h
        obtain ⟨w2, h2⟩ := ih s e k w h
        refine ⟨w2, ?_⟩
        rw [tfieldsAdd_cons_neg p t2 s e hp, lookupA_cons, if_neg hk]
        exact h2

theorem build_layer_isSome_of_mem (allF : List (List Char × DstDescr))
    (ms : List (List Char)) (S : List Char)
    (h : ∃ m ∈ ms, (parse_mapping m).1 = S) :
    ∃ w, lookupA (build_layer allF ms) S = some w := by
  suffices haux : ∀ (ms2 : List (List Char)) (acc : List (List Char × List FEntry)),
      ((∃ w, lookupA acc S = some w) ∨ ∃ m ∈ ms2, (parse_mapping m).1 = S) →
      ∃ w, lookupA (ms2.foldl (layerStep allF) acc) S = some w by
    exact haux ms [] (Or.inr h)
  intro ms2
  induction ms2 with
  | nil =>
    intro acc hh
    rcases hh with h1 | h1
    · exact h1
    · simp at h1
  | cons m rest ih =>
    intro acc hh
    rw [List.foldl_cons]
    rcases hh with ⟨w, h1⟩ | h1
    · obtain ⟨w2, h2⟩ :=
        lookupA_tfieldsAdd_isSome acc (parse_mapping m).1
          (lookupA allF (parse_mapping m).2.1, (parse_mapping m).2.2.head?) S w h1
      exact ih (layerStep allF acc m) (Or.inl ⟨w2, by rw [layerStep_eq]; exact h2⟩)
    · rcases h1 with ⟨m2, hm2, hp⟩
      rcases List.mem_cons.mp hm2 with h3 | h3
      · subst h3
        subst hp
        obtain ⟨w2, h2⟩ :=
          lookupA_tfieldsAdd_self acc (parse_mapping m2).1
            (lookupA allF (parse_mapping m2).2.1, (parse_mapping m2).2.2.head?)
        exact ih (layerStep allF acc m2) (Or.inl ⟨w2, by rw [layerStep_eq]; exact h2⟩)
      · exact ih (layerStep allF acc m) (Or.inr ⟨m2, h3, hp⟩)

theorem keysA_tfieldsAdd :
    ∀ (t : List (List Char × List FEntry)) (s : List Char) (e : FEntry),
      (tfieldsAdd t s e).map Prod.fst =
        if s ∈ t.map Prod.fst then t.map Prod.fst else t.map Prod.fst ++ [s]
  | [], s, e => by simp [tfieldsAdd]
  | p :: t, s, e => by
    by_cases hp : p.1 = s
    · rw [tfieldsAdd_cons_pos p t s e hp, List.map_cons, List.map_cons,
        if_pos (by rw [← hp]; exact List.mem_cons_self p.1 _)]
    · rw [tfieldsAdd_cons_neg p t s e hp, List.map_cons, List.map_cons,
        keysA_tfieldsAdd t s e]
      by_cases hs : s ∈ t.map Prod.fst
      · rw [if_pos hs, if_pos (List.mem_cons_of_mem p.1 hs)]
      · rw [if_neg hs, if_neg (fun hh => by
          rcases List.mem_cons.mp hh with h1 | h1
          · exact hp h1.symm
          · exact hs h1), List.cons_append]

theorem keysA_build_layer_nodup (allF : List (List Char × DstDescr))
    (ms : List (List Char)) : ((build_layer allF ms).map Prod.fst).Nodup := by
  suffices haux : ∀ (ms2 : List (List Char)) (acc : List (List Char × List FEntry)),
      (acc.map Prod.fst).Nodup → ((ms2.foldl (layerStep allF) acc).map Prod.fst).Nodup by
    exact haux ms [] (by simp)
  intro ms2
  induction ms2 with
  | nil => intro acc h; exact h
  | cons m rest ih =>
    intro acc h
    rw [List.foldl_cons]
    apply ih
    rw [layerStep_eq, keysA_tfieldsAdd]
    by_cases hs : (parse_mapping m).1 ∈ acc.map Prod.fst
    · rw [if_pos hs]; exact h
    · rw [if_neg hs]
      rw [List.nodup_append]
      exact ⟨h, List.nodup_singleton _,
        fun a ha hb => hs ((List.mem_singleton.mp hb) ▸ ha)⟩

theorem lookupA_dictUpdate_none :
    ∀ (u : List (List Char × List FEntry)) (b : List (List Char × List FEntry)) (k : List Char),
      lookupA u k = none → lookupA (dictUpdate b u) k = lookupA b k := by
  intro u
  induction u with
  | nil => intro b k _; rfl
  | cons q t ih =>
    intro b k h
    rw [lookupA_cons] at h
    by_cases hq : q.1 = k
    · rw [if_pos hq] at h; cases h
    · rw [if_neg hq] at h
      rw [dictUpdate_cons, ih (setA b q.1 q.2) k h, lookupA_setA,
        if_neg (fun hh => hq hh.symm)]

theorem lookupA_dictUpdate_some :
    ∀ (u : List (List Char × List FEntry)) (b : List (List Char × List FEntry)) (k : List Char)
      (w : List FEntry), ((u.map Prod.fst).Nodup) → lookupA u k = some w →
      lookupA (dictUpdate b u) k = some w := by
  intro u
  induction u with
  | nil => intro b k w _ h; cases h
  | cons q t ih =>
    intro b k w hnd h
    rw [List.map_cons, List.nodup_cons] at hnd
    rw [lookupA_cons] at h
    by_cases hq : q.1 = k
    · rw [if_pos hq] at h
      have hk : k ∉ t.map Prod.fst := hq ▸ hnd.1
      have ht : lookupA t k = none := lookupA_eq_none_of_not_mem_keys t k hk
      rw [dictUpdate_cons, lookupA_dictUpdate_none t (setA b q.1 q.2) k ht, lookupA_setA,
        if_pos hq.symm]
      exact h
    · rw [if_neg hq] at h
      rw [dictUpdate_cons]
      exact ih (setA b q.1 q.2) k w hnd.2 h

theorem splitColon_no_colon (s : List Char) (hs : ':' ∉ s) : splitColon s = [s] := by
  induction s with
  | nil => rfl
  | cons c t ih =>
    have hc : ¬(c = ':') := fun h => hs (h ▸ List.mem_cons_self c t)
    have ht : ':' ∉ t := fun h => hs (List.mem_cons_of_mem c h)
    rw [splitColon, if_neg hc, ih ht]

theorem splitColon_append (s d : List Char) (hs : ':' ∉ s) :
    splitColon (s ++ ':' :: d) = s :: splitColon d := by
  induction s with
  | nil => simp [splitColon]
  | cons c t ih =>
    have hc : ¬(c = ':') := fun h => hs (h ▸ List.mem_cons_self c _)
    have ht : ':' ∉ t := fun h => hs (List.mem_cons_of_mem c h)
    rw [List.cons_append, splitColon, if_neg hc, ih ht]

theorem parse_mapping_append (s d : List Char) (hs : ':' ∉ s) (hd : ':' ∉ d) :
    parse_mapping (s ++ ':' :: d) = (s, d, []) := by
  unfold parse_mapping
  rw [if_pos (by simp), splitColon_append s d hs, splitColon_no_colon d hd]

/-- C9: a user layer that mentions a source key replaces the whole default
destination list for that key (dict.update of a per-layer table); a
mapping whose destination part is an unknown (or empty) field name
resolves to a None destination descriptor with no converter; and the
engine dispatch treats a None destination as a plain skip — no exception,
no action. -/
theorem c9_mapping_layering
    (allF : List (List Char × DstDescr)) (defaults users : List (List Char)) (S : List Char)
    (hS : ∃ m ∈ users, (parse_mapping m).1 = S)
    (s d : List Char) (hs : ':' ∉ s) (hd : ':' ∉ d)
    (hFd : lookupA allF d = none)
    (itemTruthy : Bool) (v : EngArg) :
    lookupA (resolve_fields allF defaults users) S = lookupA (build_layer allF users) S ∧
    build_layer allF [s ++ ':' :: d] = [(s, [(none, none)])] ∧
    dispatch_field itemTruthy none v = StepAct.skipped := by
  refine ⟨?_, ?_, ?_⟩
  · obtain ⟨w, hw⟩ := build_layer_isSome_of_mem allF users S hS
    unfold resolve_fields
    rw [lookupA_dictUpdate_some (build_layer allF users) (build_layer allF defaults) S w
      (keysA_build_layer_nodup allF users) hw, hw]
  · have hp := parse_mapping_append s d hs hd
    simp [build_layer, layerStep, hp, tfieldsAdd, hFd]
  · simp [dispatch_field, isPositionDst]

/-- Witness for C9: the default Estimate mapping overridden by the
suppressing user entry Estimate: (empty destination). -/
theorem c9_mapping_layering_witness :
    lookupA (resolve_fields wAllFields [("Estimate:Size:Scale".data)] [("Estimate:".data)])
        ("Estimate".data) =
      lookupA (build_layer wAllFields [("Estimate:".data)]) ("Estimate".data) ∧
    build_layer wAllFields [("Estimate".data) ++ ':' :: ("Bogus".data)] =
      [(("Estimate".data), [(none, none)])] ∧
    dispatch_field true none (EngArg.vstr ("x".data)) = StepAct.skipped :=
  c9_mapping_layering wAllFields [("Estimate:Size:Scale".data)] [("Estimate:".data)]
    ("Estimate".data) ⟨("Estimate:".data), List.mem_singleton.mpr rfl, rfl⟩
    ("Estimate".data) ("Bogus".data) (by decide) (by decide) rfl true
    (EngArg.vstr ("x".data))

end ProjectsMigrator
